import Mathlib

/-!
# CexEarn aggregation route: a shallow embedding

This file embeds the data-aggregation layer of the CexEarn repository
(the `/api/products` route: four vendor adapters, the merge/filter/sort
pipeline, and the in-memory 2-minute cache) as executable Lean
definitions, and proves properties of the embedded code.

Modelling conventions:
* JavaScript numbers are modelled as `ℚ`; `toFixed(2)` on a positive
  value is modelled as rounding to the nearest multiple of `1/100`.
* Vendor HTTP interactions are modelled by oracle structures: each
  adapter takes a record describing the responses the vendor would give
  (including failure flags for the paths where the real code catches an
  exception), so the adapter body itself is a faithful translation of
  the route's control flow.
* HMAC signatures are kept symbolic: a signature is the constructor
  `Sig.hmacSha256Hex`/`Sig.hmacSha256Base64` applied to the secret and
  the signed message, which records exactly which secret signed which
  canonical string.
* Environment variables are strings, with `""` standing for both the
  empty and the unset case (the route only ever tests them for
  JavaScript falsiness and defaults them with `|| ''`).
-/

namespace CexEarn

/-- The normalized output unit (`Product` in `src/types.ts`); the three
`apyHistory` period keys are the record fields `apyHistory1d` /
`apyHistory1w` / `apyHistory1m`. -/
structure Product where
  id : String
  exchange : String
  exchangeLogo : String
  currency : String
  apy : ℚ
  apyHistory1d : List ℚ
  apyHistory1w : List ℚ
  apyHistory1m : List ℚ
  updateTime : ℕ
deriving Repr, DecidableEq

/-- `const SUPPORTED_STABLECOINS = ['USDT', 'USDC', 'DAI']`. -/
def SUPPORTED_STABLECOINS : List String := ["USDT", "USDC", "DAI"]

/-- JavaScript `Number(x.toFixed(2))` for the (positive) rationals this
route feeds it: round to the nearest hundredth. -/
def jsToFixed2 (x : ℚ) : ℚ := (round (x * 100) : ℤ) / 100

/-- `const formatApy = (apy) => Number((apy * 100 * 100).toFixed(2)) / 100`
(identical local definitions in the Binance and OKX adapters). -/
def formatApy (apy : ℚ) : ℚ := jsToFixed2 (apy * 100 * 100) / 100

/-- The `getHistoryOrFallback` closure shared (up to the field being
mapped) by the Binance and OKX adapters: if at least `count` history
samples exist, take the first `count` and format them, otherwise fill
the whole list with the current rate. -/
def getHistoryOrFallback (fmt : ℚ → ℚ) (history : List ℚ) (currentApy : ℚ)
    (count : ℕ) : List ℚ :=
  if count ≤ history.length then (history.take count).map fmt
  else List.replicate count currentApy

/-- Stable descending insertion (the helper for `sortDescBy`): the new
element `x` is placed before the first element whose key is `≤ key x`,
so an earlier element wins ties against later ones. -/
def insertDescBy {α β : Type} [LinearOrder β] (key : α → β) (x : α) :
    List α → List α
  | [] => [x]
  | y :: ys => if key y ≤ key x then x :: y :: ys else y :: insertDescBy key x ys

/-- Stable descending sort by a key, modelling the ECMAScript stable
`Array.prototype.sort` with comparator `(a, b) => key b - key a`. -/
def sortDescBy {α β : Type} [LinearOrder β] (key : α → β) : List α → List α
  | [] => []
  | x :: xs => insertDescBy key x (sortDescBy key xs)

/-- A symbolic HMAC-SHA256 signature: records the secret and the signed
message rather than computing the digest. -/
inductive Sig where
  | hmacSha256Hex (secret : String) (message : String)
  | hmacSha256Base64 (secret : String) (message : String)
deriving Repr, DecidableEq

/-- One signed outbound request: endpoint, canonical signed string, and
the signature attached to it. -/
structure SignedRequest where
  url : String
  message : String
  sig : Sig
deriving Repr, DecidableEq

/-- The environment variables the route reads; `""` models both the
empty and the unset variable. -/
structure Env where
  binanceApiKey : String
  binanceApiSecret : String
  bitgetApiKey : String
  bitgetApiSecret : String
  bitgetPassphrase : String
deriving Repr, DecidableEq

/-! ## Binance adapter (`fetchBinanceProducts`) -/

/-- One row of the Binance flexible-product list response; numeric
strings are modelled by their parsed rational value. -/
structure BinanceFlexibleProduct where
  productId : String
  asset : String
  latestAnnualPercentageRate : ℚ
deriving Repr, DecidableEq

/-- One row of the Binance rate-history response. -/
structure BinanceHistoryProduct where
  annualPercentageRate : ℚ
  time : ℕ
deriving Repr, DecidableEq

/-- What Binance answers for one coin: the product-list call and the
history call (`ok` flags model non-success HTTP statuses). -/
structure BinanceCoinResp where
  listOk : Bool
  rows : List BinanceFlexibleProduct
  historyOk : Bool
  historyRows : List BinanceHistoryProduct
deriving Repr

/-- The whole Binance fetch round: `thrown` models an exception escaping
to the adapter's outer `catch` (e.g. a network rejection). -/
structure BinanceOutcome where
  thrown : Bool
  responses : String → BinanceCoinResp

/-- The query string of the Binance product-list request. -/
def binanceListQuery (coin : String) (timestamp : ℕ) : String :=
  "asset=" ++ coin ++ "&current=1&size=100&timestamp=" ++ toString timestamp

/-- The query string of the Binance rate-history request. -/
def binanceHistoryQuery (productId : String) (timestamp : ℕ) : String :=
  "productId=" ++ productId ++ "&startTime=" ++ toString (timestamp - 30 * 24 * 60 * 60 * 1000) ++
  "&endTime=" ++ toString timestamp ++ "&current=1&size=100&timestamp=" ++ toString timestamp

/-- The per-coin body of `fetchBinanceProducts`: sign and send the list
request (the secret defaulted with `|| ''`), drop the coin (`null`) on a
bad status or an empty row set, then fetch the history, degrading to an
empty history on failure; the history is sorted newest-first. Returns
the JS promise's value together with the signed requests sent. -/
def binanceFetchCoin (env : Env) (resp : BinanceCoinResp) (coin : String)
    (timestamp : ℕ) :
    Option (BinanceFlexibleProduct × List BinanceHistoryProduct) × List SignedRequest :=
  let queryString := binanceListQuery coin timestamp
  let listReq : SignedRequest :=
    ⟨"https://api.binance.com/sapi/v1/simple-earn/flexible/list", queryString,
      Sig.hmacSha256Hex env.binanceApiSecret queryString⟩
  if resp.listOk then
    match resp.rows.head? with
    | none => (none, [listReq])
    | some product =>
      let historyQueryString := binanceHistoryQuery product.productId timestamp
      let historyReq : SignedRequest :=
        ⟨"https://api.binance.com/sapi/v1/simple-earn/flexible/history/rateHistory",
          historyQueryString, Sig.hmacSha256Hex env.binanceApiSecret historyQueryString⟩
      if resp.historyOk then
        (some (product, sortDescBy (fun h => h.time) resp.historyRows),
          [listReq, historyReq])
      else (some (product, []), [listReq, historyReq])
  else (none, [listReq])

/-- The `.map` body of `fetchBinanceProducts`: build the normalized
Product from the vendor product and its (newest-first) history. -/
def binanceBuildProduct (now : ℕ) (product : BinanceFlexibleProduct)
    (history : List BinanceHistoryProduct) : Product :=
  let currentApy := formatApy product.latestAnnualPercentageRate
  let getHist := fun count =>
    getHistoryOrFallback formatApy (history.map (fun h => h.annualPercentageRate))
      currentApy count
  { id := "binance-" ++ product.asset.toLower ++ "-flexible"
    exchange := "Binance"
    exchangeLogo := "/logos/binance.svg"
    currency := product.asset
    apy := currentApy
    apyHistory1d := getHist 12
    apyHistory1w := getHist 28
    apyHistory1m := getHist 120
    updateTime := now }

/-- `fetchBinanceProducts`: one sub-fetch per supported coin, `null`
results filtered out (so a failed or unavailable coin is dropped, not
replaced by a placeholder), `[]` when the outer `catch` fires. -/
def fetchBinanceProducts (env : Env) (o : BinanceOutcome) (now : ℕ) :
    List Product × List SignedRequest :=
  if o.thrown then ([], [])
  else
    let results := SUPPORTED_STABLECOINS.map
      (fun coin => binanceFetchCoin env (o.responses coin) coin now)
    ((results.filterMap (fun r => r.1)).map
        (fun pr => binanceBuildProduct now pr.1 pr.2),
      (results.map (fun r => r.2)).flatten)

/-! ## Bybit adapter (`fetchBybitProducts`) -/

/-- One entry of the Bybit flexible-saving list; `estimateApr` holds the
parsed value of `estimateApr.replace('%', '')`. -/
structure BybitProduct where
  coin : String
  status : String
  estimateApr : ℚ
deriving Repr, DecidableEq

/-- The Bybit fetch round: `thrown` covers network errors, non-success
HTTP statuses and `retCode ≠ 0` (all of which throw into the `catch`). -/
structure BybitOutcome where
  thrown : Bool
  list : List BybitProduct
deriving Repr

/-- `fetchBybitProducts`: one Product per supported coin, zero-APY when
no `Available` product matches the coin; `[]` when the fetch failed. -/
def fetchBybitProducts (o : BybitOutcome) (timestamp : ℕ) : List Product :=
  if o.thrown then []
  else
    SUPPORTED_STABLECOINS.map (fun coin =>
      let product := o.list.find? (fun p => p.coin == coin && p.status == "Available")
      let apr := match product with
        | none => (0 : ℚ)
        | some p => p.estimateApr
      { id := "bybit-" ++ coin.toLower ++ "-flexible"
        exchange := "Bybit"
        exchangeLogo := "/logos/bybit.svg"
        currency := coin
        apy := apr
        apyHistory1d := List.replicate 12 apr
        apyHistory1w := List.replicate 28 apr
        apyHistory1m := List.replicate 120 apr
        updateTime := timestamp })

/-! ## OKX adapter (`fetchOKXProducts`) -/

/-- One entry of the OKX lending-rate summary. -/
structure OKXLendingSummaryItem where
  ccy : String
  estRate : ℚ
deriving Repr, DecidableEq

/-- One raw item of the OKX lending-rate history (`ts` and `rate`
already parsed). -/
structure OKXLendingRateItem where
  ts : ℕ
  rate : ℚ
deriving Repr, DecidableEq

/-- The per-coin processed history entry (`OKXHistoryEntry` in source). -/
structure OKXHistoryEntry where
  rate : ℚ
  timestamp : ℕ
deriving Repr, DecidableEq

/-- The OKX fetch round: `thrown` covers network errors, bad statuses
and `code ≠ '0'` on the summary call; `historyRaw coin = none` models
every per-coin history error path (bad status, unsupported coin,
throttling, exception), which the loop converts to an empty history. -/
structure OKXOutcome where
  thrown : Bool
  summary : List OKXLendingSummaryItem
  historyRaw : String → Option (List OKXLendingRateItem)

/-- The history-loop body for one coin: failures become `[]`, successes
are sorted newest-first and repackaged. -/
def okxCoinHistory (raw : Option (List OKXLendingRateItem)) : List OKXHistoryEntry :=
  match raw with
  | none => []
  | some items =>
    (sortDescBy (fun h => h.ts) items).map (fun h => ⟨h.rate, h.ts⟩)

/-- The zero-APY OKX record built when the coin has no product or a zero
rate. -/
def okxPlaceholder (coin : String) (now : ℕ) : Product :=
  { id := "okx-" ++ coin.toLower ++ "-flexible"
    exchange := "OKX"
    exchangeLogo := "/logos/okx.svg"
    currency := coin
    apy := 0
    apyHistory1d := List.replicate 12 0
    apyHistory1w := List.replicate 28 0
    apyHistory1m := List.replicate 120 0
    updateTime := now }

/-- The `.map` body of `fetchOKXProducts` for one coin. -/
def okxProductForCoin (coin : String) (products : List OKXLendingSummaryItem)
    (history : List OKXHistoryEntry) (now : ℕ) : Product :=
  match products.find? (fun p => p.ccy == coin) with
  | none => okxPlaceholder coin now
  | some product =>
    if product.estRate = 0 then okxPlaceholder coin now
    else
      let currentApy := formatApy product.estRate
      let getHist := fun count =>
        getHistoryOrFallback formatApy (history.map (fun h => h.rate)) currentApy count
      { id := "okx-" ++ coin.toLower ++ "-flexible"
        exchange := "OKX"
        exchangeLogo := "/logos/okx.svg"
        currency := coin
        apy := currentApy
        apyHistory1d := getHist 12
        apyHistory1w := getHist 28
        apyHistory1m := getHist 120
        updateTime := now }

/-- `fetchOKXProducts`: one record per supported coin, then
`.filter(product => product.apy > 0)` — zero-APY placeholders are
removed before returning; `[]` when the outer `catch` fires. -/
def fetchOKXProducts (o : OKXOutcome) (now : ℕ) : List Product :=
  if o.thrown then []
  else
    (SUPPORTED_STABLECOINS.map (fun coin =>
        okxProductForCoin coin o.summary (okxCoinHistory (o.historyRaw coin)) now)).filter
      (fun product => decide (0 < product.apy))

/-! ## Bitget adapter (`fetchBitgetProducts`) -/

/-- One entry of a Bitget product's `apyList` (a deposit-size tier);
numeric strings are modelled by their parsed rational value. -/
structure BitgetApyItem where
  rateLevel : String
  minStepVal : ℚ
  maxStepVal : ℚ
  currentApy : ℚ
deriving Repr, DecidableEq

/-- One Bitget savings product. -/
structure BitgetProduct where
  productId : String
  coin : String
  periodType : String
  status : String
  apyList : List BitgetApyItem
deriving Repr, DecidableEq

/-- The Bitget fetch round: `productsFor coin` is the per-coin result
after the per-coin `try/catch` (every error path yields `[]`); `thrown`
models an exception escaping to the outer `catch`. -/
structure BitgetOutcome where
  thrown : Bool
  productsFor : String → List BitgetProduct

/-- `!apiKey || !apiSecret || !passphrase`: any credential empty or
unset makes the adapter throw (into its own `catch`) before any request
is sent. -/
def bitgetCredsMissing (env : Env) : Bool :=
  env.bitgetApiKey == "" || env.bitgetApiSecret == "" || env.bitgetPassphrase == ""

/-- The canonical string Bitget signs: `timestamp + 'GET' + path + '?' +
queryString`. -/
def bitgetSignMessage (timestamp : ℕ) (coin : String) : String :=
  toString timestamp ++ "GET" ++ "/api/v2/earn/savings/product" ++ "?" ++
    "filter=available&coin=" ++ coin

/-- The `getBestApy` closure inside the Bitget reduce step: `0` for a
missing/empty tier list, the sole tier's rate when there is exactly one
tier, otherwise the second tier's rate. -/
def getBestApy (p : BitgetProduct) : ℚ :=
  if p.apyList.length = 0 then 0
  else if p.apyList.length = 1 then
    ((p.apyList.get? 0).map (fun a => a.currentApy)).getD 0
  else ((p.apyList.get? 1).map (fun a => a.currentApy)).getD 0

/-- The `selectedApy` computation on the chosen product (same tier rule,
without the empty-list guard: an empty tier list falls into the
second-tier branch and defaults to `0`). -/
def bitgetSelectedApy (apyList : List BitgetApyItem) : ℚ :=
  if apyList.length = 1 then ((apyList.get? 0).map (fun a => a.currentApy)).getD 0
  else ((apyList.get? 1).map (fun a => a.currentApy)).getD 0

/-- The zero-APY Bitget record built when no product matches the coin. -/
def bitgetPlaceholder (coin : String) (now : ℕ) : Product :=
  { id := "bitget-" ++ coin.toLower ++ "-flexible"
    exchange := "Bitget"
    exchangeLogo := "/logos/bitget.svg"
    currency := coin
    apy := 0
    apyHistory1d := List.replicate 12 0
    apyHistory1w := List.replicate 28 0
    apyHistory1m := List.replicate 120 0
    updateTime := now }

/-- The final `.map` body of `fetchBitgetProducts` for one coin: filter
the merged product pool to in-progress flexible products of the coin,
reduce to the product with the highest `getBestApy` (initial accumulator
`matchingProducts[0]`), and emit the selected tier rate. -/
def bitgetBuildForCoin (coin : String) (allProducts : List BitgetProduct)
    (now : ℕ) : Product :=
  let matching := allProducts.filter (fun p =>
    p.coin.toUpper == coin && p.periodType.toLower == "flexible" &&
      p.status == "in_progress")
  match matching with
  | [] => bitgetPlaceholder coin now
  | m :: _ =>
    let product := matching.foldl
      (fun best current => if getBestApy best < getBestApy current then current else best) m
    let selectedApy := bitgetSelectedApy product.apyList
    { id := "bitget-" ++ coin.toLower ++ "-flexible"
      exchange := "Bitget"
      exchangeLogo := "/logos/bitget.svg"
      currency := coin
      apy := selectedApy
      apyHistory1d := List.replicate 12 selectedApy
      apyHistory1w := List.replicate 28 selectedApy
      apyHistory1m := List.replicate 120 selectedApy
      updateTime := now }

/-- `fetchBitgetProducts`: missing credentials throw before any request
(caught by the outer `catch`, yielding `[]` and no outbound traffic);
otherwise one signed product request per coin is sent and one Product
per supported coin is built from the merged pool. -/
def fetchBitgetProducts (env : Env) (o : BitgetOutcome) (now : ℕ) :
    List Product × List SignedRequest :=
  if bitgetCredsMissing env then ([], [])
  else if o.thrown then ([], [])
  else
    let requests := SUPPORTED_STABLECOINS.map (fun coin =>
      SignedRequest.mk "https://api.bitget.com/api/v2/earn/savings/product"
        (bitgetSignMessage now coin)
        (Sig.hmacSha256Base64 env.bitgetApiSecret (bitgetSignMessage now coin)))
    let allProducts := (SUPPORTED_STABLECOINS.map (fun coin => o.productsFor coin)).flatten
    (SUPPORTED_STABLECOINS.map (fun coin => bitgetBuildForCoin coin allProducts now),
      requests)

/-! ## Cache and the `GET` handler -/

/-- `CACHE_DURATION: 2 * 60 * 1000` (two minutes, in milliseconds). -/
def CACHE_DURATION : ℕ := 2 * 60 * 1000

/-- The module-level cache: the `data` and `timestamp` maps, modelled as
association lists. -/
structure CacheState where
  data : List (String × List Product)
  timestamp : List (String × ℕ)
deriving Repr, DecidableEq

/-- The cache at process start. -/
def emptyCache : CacheState := ⟨[], []⟩

/-- `Map.prototype.set`: overwrite the binding for `key`. -/
def mapSet {β : Type} (key : String) (v : β) (m : List (String × β)) :
    List (String × β) :=
  (key, v) :: m.filter (fun kv => kv.1 != key)

/-- `isCacheValid`: a timestamp exists and is younger than the TTL. -/
def isCacheValid (c : CacheState) (now : ℕ) (key : String) : Bool :=
  match c.timestamp.lookup key with
  | none => false
  | some t => decide (now - t < CACHE_DURATION)

/-- `getCachedData`: the stored list when the entry is still valid,
otherwise a miss. -/
def getCachedData (c : CacheState) (now : ℕ) (key : String) :
    Option (List Product) :=
  if isCacheValid c now key then c.data.lookup key else none

/-- `setCacheData`: store the list and stamp the write time. -/
def setCacheData (key : String) (data : List Product) (now : ℕ)
    (c : CacheState) : CacheState :=
  ⟨mapSet key data c.data, mapSet key now c.timestamp⟩

/-- `searchParams.get(name) || default`: both a missing and an empty
parameter fall back to the default. -/
def jsOrDefault (o : Option String) (d : String) : String :=
  match o with
  | none => d
  | some s => if s == "" then d else s

/-- The merge/filter/sort pipeline of the `GET` handler: concatenate the
four adapter outputs, keep records matching the requested coin with a
positive APY, and sort descending by APY (stable). -/
def aggregate (coin : String) (binance bybit okx bitget : List Product) :
    List Product :=
  sortDescBy (fun p => p.apy)
    ((binance ++ bybit ++ okx ++ bitget).filter
      (fun p => p.currency == coin && decide (0 < p.apy)))

/-- The value of one `GET` invocation: the JSON envelope's `success` and
`data` fields plus the cache state after the request. -/
structure GetResult where
  success : Bool
  data : List Product
  cache : CacheState
deriving Repr, DecidableEq

/-- The `GET` handler, over the query parameters, the four fetched
adapter outputs and the ambient cache: defaults `period`/`coin`, serves
a valid cache entry, otherwise aggregates and caches the result only
when it is non-empty. -/
def GET (periodParam coinParam : Option String)
    (binance bybit okx bitget : List Product)
    (cache : CacheState) (now : ℕ) : GetResult :=
  let period := jsOrDefault periodParam "1d"
  let coin := jsOrDefault coinParam "USDT"
  let cacheKey := period ++ "-" ++ coin
  match getCachedData cache now cacheKey with
  | some cachedData => ⟨true, cachedData, cache⟩
  | none =>
    let products := aggregate coin binance bybit okx bitget
    let cacheAfter :=
      if 0 < products.length then setCacheData cacheKey products now cache else cache
    ⟨true, products, cacheAfter⟩

/-! ## Helper lemmas -/

/-- The history helper always produces exactly `count` entries. -/
theorem length_getHistoryOrFallback (fmt : ℚ → ℚ) (h : List ℚ) (c : ℚ) (n : ℕ) :
    (getHistoryOrFallback fmt h c n).length = n := by
  unfold getHistoryOrFallback
  split
  · rw [List.length_map, List.length_take]
    omega
  · simp

/-- Membership through stable descending insertion. -/
theorem mem_insertDescBy {α β : Type} [LinearOrder β] (key : α → β) (x a : α) :
    ∀ l : List α, a ∈ insertDescBy key x l ↔ a = x ∨ a ∈ l
  | [] => by simp [insertDescBy]
  | y :: ys => by
    unfold insertDescBy
    split
    · simp only [List.mem_cons]
    · simp only [List.mem_cons, mem_insertDescBy key x a ys]
      tauto

/-- Stable descending insertion preserves descending sortedness. -/
theorem pairwise_insertDescBy {α β : Type} [LinearOrder β] (key : α → β) (x : α) :
    ∀ l : List α, l.Pairwise (fun a b => key b ≤ key a) →
      (insertDescBy key x l).Pairwise (fun a b => key b ≤ key a)
  | [], _ => by simp [insertDescBy]
  | y :: ys, hl => by
    rcases List.pairwise_cons.mp hl with ⟨hy, hys⟩
    unfold insertDescBy
    split
    case isTrue hyx =>
      refine List.pairwise_cons.mpr ⟨?_, hl⟩
      intro b hb
      rcases List.mem_cons.mp hb with rfl | hb
      · exact hyx
      · exact le_trans (hy b hb) hyx
    case isFalse hyx =>
      refine List.pairwise_cons.mpr ⟨?_, pairwise_insertDescBy key x ys hys⟩
      intro b hb
      rcases (mem_insertDescBy key x b ys).mp hb with rfl | hb
      · exact le_of_lt (lt_of_not_le hyx)
      · exact hy b hb

/-- Inserting an element whose key equals `c` puts it in front of every
stored element with that key (the skipped elements have strictly larger
keys). -/
theorem filter_insertDescBy_of_eq {α β : Type} [LinearOrder β] (key : α → β)
    (x : α) (c : β) (hx : key x = c) :
    ∀ l : List α, (insertDescBy key x l).filter (fun a => decide (key a = c)) =
      x :: l.filter (fun a => decide (key a = c))
  | [] => by simp [insertDescBy, hx]
  | y :: ys => by
    unfold insertDescBy
    split
    case isTrue hyx => simp [List.filter_cons, hx]
    case isFalse hyx =>
      have hyc : ¬ key y = c := by
        intro h
        exact hyx (le_of_eq (h.trans hx.symm))
      rw [List.filter_cons, if_neg (by simp [hyc]), List.filter_cons,
        if_neg (by simp [hyc]), filter_insertDescBy_of_eq key x c hx ys]

/-- Inserting an element whose key differs from `c` leaves the
`key = c` sublist unchanged. -/
theorem filter_insertDescBy_of_ne {α β : Type} [LinearOrder β] (key : α → β)
    (x : α) (c : β) (hx : ¬ key x = c) :
    ∀ l : List α, (insertDescBy key x l).filter (fun a => decide (key a = c)) =
      l.filter (fun a => decide (key a = c))
  | [] => by simp [insertDescBy, hx]
  | y :: ys => by
    unfold insertDescBy
    split
    case isTrue hyx => simp [List.filter_cons, hx]
    case isFalse hyx =>
      simp only [List.filter_cons]
      rw [filter_insertDescBy_of_ne key x c hx ys]

/-- `sortDescBy` output is non-increasing in the key. -/
theorem pairwise_sortDescBy {α β : Type} [LinearOrder β] (key : α → β) :
    ∀ l : List α, (sortDescBy key l).Pairwise (fun a b => key b ≤ key a)
  | [] => by simp [sortDescBy]
  | x :: xs => pairwise_insertDescBy key x _ (pairwise_sortDescBy key xs)

/-- `sortDescBy` neither adds nor removes elements. -/
theorem mem_sortDescBy {α β : Type} [LinearOrder β] (key : α → β) (a : α) :
    ∀ l : List α, a ∈ sortDescBy key l ↔ a ∈ l
  | [] => Iff.rfl
  | x :: xs => by
    unfold sortDescBy
    rw [mem_insertDescBy, mem_sortDescBy key a xs, List.mem_cons]

/-- Stability of `sortDescBy`: for every key value `c`, the sublist of
elements with that key keeps its original order. -/
theorem filter_sortDescBy {α β : Type} [LinearOrder β] (key : α → β) (c : β) :
    ∀ l : List α, (sortDescBy key l).filter (fun a => decide (key a = c)) =
      l.filter (fun a => decide (key a = c))
  | [] => rfl
  | x :: xs => by
    unfold sortDescBy
    by_cases hx : key x = c
    · rw [filter_insertDescBy_of_eq key x c hx, filter_sortDescBy key c xs,
        List.filter_cons]
      simp [hx]
    · rw [filter_insertDescBy_of_ne key x c hx, filter_sortDescBy key c xs,
        List.filter_cons]
      simp [hx]

/-- Looking up the key just written into a JS `Map`. -/
theorem lookup_mapSet_self {β : Type} (key : String) (v : β)
    (m : List (String × β)) : (mapSet key v m).lookup key = some v := by
  simp [mapSet, List.lookup]

/-- A read of a freshly written key within the TTL returns the stored
list. -/
theorem getCachedData_set_within_ttl (key : String) (l : List Product)
    (now now2 : ℕ) (c : CacheState) (h : now2 - now < CACHE_DURATION) :
    getCachedData (setCacheData key l now c) now2 key = some l := by
  unfold getCachedData isCacheValid setCacheData
  simp only [lookup_mapSet_self, h, decide_eq_true_eq]
  simp [h]

/-- A read of a freshly written key at or after TTL expiry misses. -/
theorem getCachedData_set_after_ttl (key : String) (l : List Product)
    (now now2 : ℕ) (c : CacheState) (h : CACHE_DURATION ≤ now2 - now) :
    getCachedData (setCacheData key l now c) now2 key = none := by
  unfold getCachedData isCacheValid setCacheData
  have h2 : ¬ (now2 - now < CACHE_DURATION) := by omega
  simp [lookup_mapSet_self, h2]

/-- A cache hit can only return a list stored in the `data` map. -/
theorem getCachedData_eq_some (c : CacheState) (now : ℕ) (key : String)
    (l : List Product) (h : getCachedData c now key = some l) :
    c.data.lookup key = some l := by
  unfold getCachedData at h
  split at h
  · exact h
  · exact absurd h (by simp)

/-- Every product built by `binanceBuildProduct` has the three fixed
history lengths. -/
theorem lengths_binanceBuildProduct (now : ℕ) (pr : BinanceFlexibleProduct)
    (h : List BinanceHistoryProduct) :
    (binanceBuildProduct now pr h).apyHistory1d.length = 12 ∧
    (binanceBuildProduct now pr h).apyHistory1w.length = 28 ∧
    (binanceBuildProduct now pr h).apyHistory1m.length = 120 := by
  refine ⟨?_, ?_, ?_⟩ <;> simp [binanceBuildProduct, length_getHistoryOrFallback]

/-- Every product built by `okxProductForCoin` has the three fixed
history lengths. -/
theorem lengths_okxProductForCoin (coin : String)
    (products : List OKXLendingSummaryItem) (history : List OKXHistoryEntry)
    (now : ℕ) :
    (okxProductForCoin coin products history now).apyHistory1d.length = 12 ∧
    (okxProductForCoin coin products history now).apyHistory1w.length = 28 ∧
    (okxProductForCoin coin products history now).apyHistory1m.length = 120 := by
  unfold okxProductForCoin
  split
  · simp [okxPlaceholder]
  · split
    · simp [okxPlaceholder]
    · refine ⟨?_, ?_, ?_⟩ <;> simp [length_getHistoryOrFallback]

/-- Every product built by `bitgetBuildForCoin` has the three fixed
history lengths. -/
theorem lengths_bitgetBuildForCoin (coin : String)
    (allProducts : List BitgetProduct) (now : ℕ) :
    (bitgetBuildForCoin coin allProducts now).apyHistory1d.length = 12 ∧
    (bitgetBuildForCoin coin allProducts now).apyHistory1w.length = 28 ∧
    (bitgetBuildForCoin coin allProducts now).apyHistory1m.length = 120 := by
  cases hm : allProducts.filter (fun p =>
      p.coin.toUpper == coin && p.periodType.toLower == "flexible" &&
        p.status == "in_progress") with
  | nil => simp [bitgetBuildForCoin, hm, bitgetPlaceholder]
  | cons m rest => refine ⟨?_, ?_, ?_⟩ <;> simp [bitgetBuildForCoin, hm]

/-- Every signed request the Binance per-coin fetch emits is an
HMAC-SHA256-hex signature with the adapter's configured secret over the
request's own canonical string. -/
theorem sig_binanceFetchCoin (env : Env) (resp : BinanceCoinResp)
    (coin : String) (t : ℕ) (r : SignedRequest)
    (hr : r ∈ (binanceFetchCoin env resp coin t).2) :
    r.sig = Sig.hmacSha256Hex env.binanceApiSecret r.message := by
  unfold binanceFetchCoin at hr
  split at hr
  · split at hr
    · simp at hr
      subst hr
      rfl
    · split at hr <;>
      · simp at hr
        rcases hr with rfl | rfl <;> rfl
  · simp at hr
    subst hr
    rfl

/-- The Binance per-coin fetch always sends at least the signed
product-list request. -/
theorem requests_binanceFetchCoin_ne_nil (env : Env) (resp : BinanceCoinResp)
    (coin : String) (t : ℕ) : (binanceFetchCoin env resp coin t).2 ≠ [] := by
  unfold binanceFetchCoin
  split
  · split
    · simp
    · split <;> simp
  · simp

/-- `bitgetBuildForCoin` always stamps the requested coin as the
currency. -/
theorem currency_bitgetBuildForCoin (coin : String)
    (allProducts : List BitgetProduct) (now : ℕ) :
    (bitgetBuildForCoin coin allProducts now).currency = coin := by
  cases hm : allProducts.filter (fun p =>
      p.coin.toUpper == coin && p.periodType.toLower == "flexible" &&
        p.status == "in_progress") with
  | nil => simp [bitgetBuildForCoin, hm, bitgetPlaceholder]
  | cons m rest => simp [bitgetBuildForCoin, hm]

/-! ## Concrete instances used by witnesses and counterexamples -/

/-- A fully configured environment. -/
def env0 : Env := ⟨"key", "secret", "bgkey", "bgsecret", "bgpass"⟩

/-- An environment with every credential empty or unset. -/
def envNoCreds : Env := ⟨"", "", "", "", ""⟩

/-- A failed Binance per-coin response (non-success HTTP status). -/
def binanceRespFail : BinanceCoinResp := ⟨false, [], false, []⟩

/-- A successful Binance per-coin response with one product at a 5%
vendor-fractional rate and no history rows. -/
def binanceRespOk (coin : String) : BinanceCoinResp :=
  ⟨true, [⟨"pid-" ++ coin, coin, 1/20⟩], true, []⟩

/-- A Binance round where only the USDT sub-fetch fails. -/
def binanceOUsdtDown : BinanceOutcome :=
  ⟨false, fun coin => if coin == "USDT" then binanceRespFail else binanceRespOk coin⟩

/-- A Binance round where every sub-fetch gets a failed status. -/
def binanceOFail : BinanceOutcome := ⟨false, fun _ => binanceRespFail⟩

/-- A successful Bybit round with an empty vendor product list. -/
def bybitOEmpty : BybitOutcome := ⟨false, []⟩

/-- An OKX round whose summary call failed. -/
def okxOFail : OKXOutcome := ⟨true, [], fun _ => none⟩

/-- A successful Bitget round with an empty product pool. -/
def bitgetOEmpty : BitgetOutcome := ⟨false, fun _ => []⟩

/-- The zero-APY USDT record Bybit emits for an empty vendor list. -/
def bybitUsdtPlaceholder : Product :=
  ⟨"bybit-" ++ "USDT".toLower ++ "-flexible", "Bybit", "/logos/bybit.svg", "USDT", 0,
    List.replicate 12 0, List.replicate 28 0, List.replicate 120 0, 0⟩

/-- Evaluating `round` on a concrete rational from explicit bounds. -/
theorem round_eq_of_bounds (q : ℚ) (n : ℤ) (h1 : (n : ℚ) ≤ q + 1/2)
    (h2 : q + 1/2 < n + 1) : round q = n := by
  rw [round_eq]
  exact Int.floor_eq_iff.mpr ⟨h1, h2⟩

/-- A sample normalized USDT product with a 5% APY. -/
def productUSDT : Product :=
  ⟨"x-usdt-flexible", "X", "/logos/x.svg", "USDT", 5,
    List.replicate 12 5, List.replicate 28 5, List.replicate 120 5, 0⟩

/-! ## Claims -/

/-- C1 (counterexample): the claim says every adapter returns exactly
one Product per supported currency (length 3) with zero-APY placeholders
for failed fetches. The Binance adapter instead drops a currency whose
product-list call failed: with the USDT sub-fetch failing and the other
two succeeding it returns 2 products, not 3. -/
theorem C1_counterexample :
    (fetchBinanceProducts env0 binanceOUsdtDown 0).1.length ≠ 3 := by decide

/-- C1 (amended): no adapter raises an uncaught failure (each is a total
function into a product list), but their shapes differ: on a successful
round Bybit always returns one Product per supported currency (with
zero-APY placeholders), and Bitget does too when its credentials are
set; Binance returns at most one Product per currency, dropping a
currency whose fetch failed or had no product; OKX returns at most one
per currency, filtering out its zero-APY placeholders; and every adapter
returns the empty list when its whole fetch round throws. -/
theorem C1_adapter_shapes :
    (∀ (oy : BybitOutcome) (now : ℕ), oy.thrown = false →
        (fetchBybitProducts oy now).map (fun p => p.currency) =
          SUPPORTED_STABLECOINS) ∧
    (∀ (env : Env) (og : BitgetOutcome) (now : ℕ),
        bitgetCredsMissing env = false → og.thrown = false →
        (fetchBitgetProducts env og now).1.map (fun p => p.currency) =
          SUPPORTED_STABLECOINS) ∧
    (∀ (env : Env) (ob : BinanceOutcome) (now : ℕ),
        (fetchBinanceProducts env ob now).1.length ≤ 3) ∧
    (∀ (ok : OKXOutcome) (now : ℕ), (fetchOKXProducts ok now).length ≤ 3) ∧
    (∀ (env : Env) (ob : BinanceOutcome) (now : ℕ), ob.thrown = true →
        (fetchBinanceProducts env ob now).1 = []) ∧
    (∀ (oy : BybitOutcome) (now : ℕ), oy.thrown = true →
        fetchBybitProducts oy now = []) ∧
    (∀ (ok : OKXOutcome) (now : ℕ), ok.thrown = true →
        fetchOKXProducts ok now = []) ∧
    (∀ (env : Env) (og : BitgetOutcome) (now : ℕ), og.thrown = true →
        (fetchBitgetProducts env og now).1 = []) := by
  refine ⟨?_, ?_, ?_, ?_, ?_, ?_, ?_, ?_⟩
  · intro oy now h
    simp [fetchBybitProducts, h, SUPPORTED_STABLECOINS]
  · intro env og now h1 h2
    simp [fetchBitgetProducts, h1, h2, SUPPORTED_STABLECOINS,
      currency_bitgetBuildForCoin]
  · intro env ob now
    cases ht : ob.thrown
    · simp only [fetchBinanceProducts, ht, Bool.false_eq_true, if_false,
        List.length_map]
      exact le_trans (List.length_filterMap_le _ _) (by simp [SUPPORTED_STABLECOINS])
    · simp [fetchBinanceProducts, ht]
  · intro ok now
    cases ht : ok.thrown
    · simp only [fetchOKXProducts, ht, Bool.false_eq_true, if_false]
      exact le_trans (List.length_filter_le _ _) (by simp [SUPPORTED_STABLECOINS])
    · simp [fetchOKXProducts, ht]
  · intro env ob now ht
    simp [fetchBinanceProducts, ht]
  · intro oy now ht
    simp [fetchBybitProducts, ht]
  · intro ok now ht
    simp [fetchOKXProducts, ht]
  · intro env og now ht
    unfold fetchBitgetProducts
    split
    · rfl
    · simp [ht]

/-- C1 (witness): the amended shape facts applied at concrete rounds —
the successful empty Bybit round yields the three supported currencies,
and a thrown OKX round yields the empty list. -/
theorem C1_witness :
    (fetchBybitProducts bybitOEmpty 0).map (fun p => p.currency) =
      SUPPORTED_STABLECOINS ∧ fetchOKXProducts okxOFail 0 = [] :=
  ⟨C1_adapter_shapes.1 bybitOEmpty 0 rfl,
    C1_adapter_shapes.2.2.2.2.2.2.1 okxOFail 0 rfl⟩

/-- C2: every product in the endpoint's response matches the requested
coin and has a strictly positive APY (zero-APY placeholders are filtered
out), and the response is a success even when nothing matches — provided
every valid cache entry for the request's key already satisfies the same
property (cache entries are only ever written from filtered results). -/
theorem C2_filtering (pp cp : Option String) (b1 b2 b3 b4 : List Product)
    (cache : CacheState) (now : ℕ)
    (hcache : ∀ l, getCachedData cache now
        (jsOrDefault pp "1d" ++ "-" ++ jsOrDefault cp "USDT") = some l →
        ∀ p ∈ l, p.currency = jsOrDefault cp "USDT" ∧ 0 < p.apy) :
    (GET pp cp b1 b2 b3 b4 cache now).success = true ∧
    ∀ p ∈ (GET pp cp b1 b2 b3 b4 cache now).data,
      p.currency = jsOrDefault cp "USDT" ∧ 0 < p.apy := by
  cases hc : getCachedData cache now
      (jsOrDefault pp "1d" ++ "-" ++ jsOrDefault cp "USDT") with
  | some l =>
    refine ⟨by simp [GET, hc], ?_⟩
    have hdata : (GET pp cp b1 b2 b3 b4 cache now).data = l := by simp [GET, hc]
    rw [hdata]
    exact hcache l hc
  | none =>
    refine ⟨by simp [GET, hc], ?_⟩
    have hdata : (GET pp cp b1 b2 b3 b4 cache now).data =
        aggregate (jsOrDefault cp "USDT") b1 b2 b3 b4 := by simp [GET, hc]
    rw [hdata]
    intro p hp
    unfold aggregate at hp
    rw [mem_sortDescBy] at hp
    rw [List.mem_filter] at hp
    obtain ⟨hmem, hq⟩ := hp
    simp only [Bool.and_eq_true, beq_iff_eq, decide_eq_true_eq] at hq
    exact hq

/-- C2 (witness): the theorem applied to a request with no parameters,
one USDT product and an empty cache. -/
theorem C2_witness :
    (GET none none [productUSDT] [] [] [] emptyCache 0).success = true :=
  (C2_filtering none none [productUSDT] [] [] [] emptyCache 0
    (by
      intro l h
      simp [getCachedData, isCacheValid, emptyCache] at h)).1

/-- C3 (counterexample): the claim says partial history is kept and only
the remainder is back-filled. On the spec's own end-to-end example
(vendor history `[0.05, 0.051, 0.052]`, i.e. `5.0/5.1/5.2` after
conversion, current rate `5.3`, period count 12) the code instead
discards the three real samples and returns twelve copies of the current
rate, so the list does not begin with `5.0, 5.1, 5.2`. -/
theorem C3_counterexample :
    getHistoryOrFallback formatApy [1/20, 51/1000, 13/250] (formatApy (53/1000)) 12 =
      List.replicate 12 (53/10) ∧
    (getHistoryOrFallback formatApy [1/20, 51/1000, 13/250]
        (formatApy (53/1000)) 12).take 3 ≠ [5, 51/10, 26/5] := by
  have h53 : formatApy (53/1000) = 53/10 := by
    unfold formatApy jsToFixed2
    norm_num
  refine ⟨?_, ?_⟩
  · rw [getHistoryOrFallback, if_neg (by simp), h53]
  · rw [getHistoryOrFallback, if_neg (by simp), h53]
    norm_num [List.take_replicate, List.replicate]

/-- C3 (amended): when the vendor supplies at least `count` samples the
first `count` (newest first) are formatted and used; when it supplies
fewer — even one short — the real samples are discarded entirely and the
whole fixed-length list is the current rate repeated. Stated on the
Binance product builder for the 12-point `1d` period. -/
theorem C3_fallback_discards_partial_history (now : ℕ)
    (product : BinanceFlexibleProduct) (history : List BinanceHistoryProduct) :
    (history.length < 12 →
      (binanceBuildProduct now product history).apyHistory1d =
        List.replicate 12 (formatApy product.latestAnnualPercentageRate)) ∧
    (12 ≤ history.length →
      (binanceBuildProduct now product history).apyHistory1d =
        (history.take 12).map (fun h => formatApy h.annualPercentageRate)) := by
  constructor
  · intro h
    have hlt : ¬ (12 ≤ history.length) := by omega
    simp [binanceBuildProduct, getHistoryOrFallback, hlt]
  · intro h
    simp [binanceBuildProduct, getHistoryOrFallback, h, ← List.map_take,
      List.map_map, Function.comp]

/-- C3 (witness): the amended back-fill rule applied to an empty
history. -/
theorem C3_fallback_witness :
    ([] : List BinanceHistoryProduct).length < 12 ∧
    (binanceBuildProduct 0 ⟨"pid", "USDT", 1/20⟩ []).apyHistory1d =
      List.replicate 12 (formatApy (1/20)) :=
  ⟨by decide,
    (C3_fallback_discards_partial_history 0 ⟨"pid", "USDT", 1/20⟩ []).1 (by decide)⟩

/-- C4: every Product emitted by any of the four adapters has exactly
12 / 28 / 120 entries in its `1d` / `1w` / `1m` history, however much
real history the vendor supplied. -/
theorem C4_history_lengths (env : Env) (ob : BinanceOutcome) (oy : BybitOutcome)
    (ok : OKXOutcome) (og : BitgetOutcome) (now : ℕ) (p : Product)
    (hp : p ∈ (fetchBinanceProducts env ob now).1 ∨ p ∈ fetchBybitProducts oy now ∨
      p ∈ fetchOKXProducts ok now ∨ p ∈ (fetchBitgetProducts env og now).1) :
    p.apyHistory1d.length = 12 ∧ p.apyHistory1w.length = 28 ∧
      p.apyHistory1m.length = 120 := by
  rcases hp with hp | hp | hp | hp
  · cases ht : ob.thrown
    · simp only [fetchBinanceProducts, ht, Bool.false_eq_true, if_false,
        List.mem_map] at hp
      obtain ⟨pr, hpr, rfl⟩ := hp
      exact lengths_binanceBuildProduct now pr.1 pr.2
    · simp [fetchBinanceProducts, ht] at hp
  · cases ht : oy.thrown
    · simp only [fetchBybitProducts, ht, Bool.false_eq_true, if_false,
        List.mem_map] at hp
      obtain ⟨coin, hcoin, rfl⟩ := hp
      refine ⟨?_, ?_, ?_⟩ <;> simp
    · simp [fetchBybitProducts, ht] at hp
  · cases ht : ok.thrown
    · simp only [fetchOKXProducts, ht, Bool.false_eq_true, if_false,
        List.mem_filter, List.mem_map] at hp
      obtain ⟨⟨coin, hcoin, rfl⟩, hpos⟩ := hp
      exact lengths_okxProductForCoin coin ok.summary
        (okxCoinHistory (ok.historyRaw coin)) now
    · simp [fetchOKXProducts, ht] at hp
  · cases hcm : bitgetCredsMissing env
    · cases ht : og.thrown
      · simp only [fetchBitgetProducts, hcm, ht, Bool.false_eq_true, if_false,
          List.mem_map] at hp
        obtain ⟨coin, hcoin, rfl⟩ := hp
        exact lengths_bitgetBuildForCoin coin _ now
      · simp [fetchBitgetProducts, hcm, ht] at hp
    · simp [fetchBitgetProducts, hcm] at hp

/-- C4 (witness): the invariant applied to the concrete zero-APY USDT
record of an empty Bybit round. -/
theorem C4_witness :
    bybitUsdtPlaceholder ∈ fetchBybitProducts bybitOEmpty 0 ∧
    bybitUsdtPlaceholder.apyHistory1d.length = 12 ∧
    bybitUsdtPlaceholder.apyHistory1w.length = 28 ∧
    bybitUsdtPlaceholder.apyHistory1m.length = 120 :=
  ⟨List.mem_cons_self _ _, C4_history_lengths env0 binanceOFail bybitOEmpty okxOFail
    bitgetOEmpty 0 bybitUsdtPlaceholder (Or.inr (Or.inl (List.mem_cons_self _ _)))⟩

/-- C5: cache algebra of the route. A write is performed only for a
non-empty aggregation (an empty one leaves the cache untouched); a read
of a written key strictly within the 2-minute TTL returns the stored
list unchanged; a read at or after expiry misses; and on any miss the
endpoint's data is a fresh aggregation of the adapter outputs, while on
a hit it is the stored list with no fetch and no cache change. -/
theorem C5_cache_roundtrip :
    (∀ (key : String) (l : List Product) (now now2 : ℕ) (c : CacheState),
        now2 - now < CACHE_DURATION →
        getCachedData (setCacheData key l now c) now2 key = some l) ∧
    (∀ (key : String) (l : List Product) (now now2 : ℕ) (c : CacheState),
        CACHE_DURATION ≤ now2 - now →
        getCachedData (setCacheData key l now c) now2 key = none) ∧
    (∀ (pp cp : Option String) (b1 b2 b3 b4 : List Product)
        (cache : CacheState) (now : ℕ),
        getCachedData cache now
            (jsOrDefault pp "1d" ++ "-" ++ jsOrDefault cp "USDT") = none →
        (GET pp cp b1 b2 b3 b4 cache now).data =
          aggregate (jsOrDefault cp "USDT") b1 b2 b3 b4 ∧
        (aggregate (jsOrDefault cp "USDT") b1 b2 b3 b4 = [] →
          (GET pp cp b1 b2 b3 b4 cache now).cache = cache) ∧
        (aggregate (jsOrDefault cp "USDT") b1 b2 b3 b4 ≠ [] →
          (GET pp cp b1 b2 b3 b4 cache now).cache =
            setCacheData (jsOrDefault pp "1d" ++ "-" ++ jsOrDefault cp "USDT")
              (aggregate (jsOrDefault cp "USDT") b1 b2 b3 b4) now cache)) ∧
    (∀ (pp cp : Option String) (b1 b2 b3 b4 : List Product)
        (cache : CacheState) (now : ℕ) (l : List Product),
        getCachedData cache now
            (jsOrDefault pp "1d" ++ "-" ++ jsOrDefault cp "USDT") = some l →
        (GET pp cp b1 b2 b3 b4 cache now).data = l ∧
        (GET pp cp b1 b2 b3 b4 cache now).cache = cache) := by
  refine ⟨getCachedData_set_within_ttl, getCachedData_set_after_ttl, ?_, ?_⟩
  · intro pp cp b1 b2 b3 b4 cache now hc
    refine ⟨by simp [GET, hc], ?_, ?_⟩
    · intro he
      simp [GET, hc, he]
    · intro hne
      have hlen : 0 < (aggregate (jsOrDefault cp "USDT") b1 b2 b3 b4).length :=
        List.length_pos.mpr hne
      simp [GET, hc, hlen]
  · intro pp cp b1 b2 b3 b4 cache now l hc
    exact ⟨by simp [GET, hc], by simp [GET, hc]⟩

/-- C5 (witness): a write of a one-element list read back 1 second
later (within the TTL) returns the stored list. -/
theorem C5_witness :
    getCachedData (setCacheData "1d-USDT" [productUSDT] 0 emptyCache) 1000
      "1d-USDT" = some [productUSDT] :=
  C5_cache_roundtrip.1 "1d-USDT" [productUSDT] 0 1000 emptyCache (by decide)

/-- C6: the tiered-rate selection rule: with exactly one tier the sole
tier's rate is selected (both by `getBestApy` and by the final
`selectedApy`), with two or more tiers the second tier's rate is
selected; in particular the spec's example tiers
`[{minStep 0, apy 10}, {minStep 500, apy 4}]` select `4`, not `10`. -/
theorem C6_tier_selection :
    (∀ a : BitgetApyItem, bitgetSelectedApy [a] = a.currentApy) ∧
    (∀ (a b : BitgetApyItem) (rest : List BitgetApyItem),
        bitgetSelectedApy (a :: b :: rest) = b.currentApy) ∧
    (∀ (pid c pt st : String) (a : BitgetApyItem),
        getBestApy ⟨pid, c, pt, st, [a]⟩ = a.currentApy) ∧
    (∀ (pid c pt st : String) (a b : BitgetApyItem) (rest : List BitgetApyItem),
        getBestApy ⟨pid, c, pt, st, a :: b :: rest⟩ = b.currentApy) ∧
    bitgetSelectedApy [⟨"1", 0, 500, 10⟩, ⟨"2", 500, 50000000, 4⟩] = 4 := by
  refine ⟨?_, ?_, ?_, ?_, ?_⟩
  · intro a
    simp [bitgetSelectedApy]
  · intro a b rest
    simp [bitgetSelectedApy]
  · intro pid c pt st a
    simp [getBestApy]
  · intro pid c pt st a b rest
    simp [getBestApy]
  · simp [bitgetSelectedApy]

/-- The spec's stated conversion, for comparison with the code's
`formatApy`. Modelled from the spec: multiply the vendor-fractional rate
by 100 and round to two-decimal percentage points. -/
def formatApySpec (r : ℚ) : ℚ := jsToFixed2 (r * 100)

/-- The code's `formatApy` in closed form: `r * 1000000` rounded to an
integer, divided by 10000 — that is, `r * 100` carried to four decimal
places, not two. -/
theorem formatApy_eq_round (r : ℚ) :
    formatApy r = (round (r * 1000000) : ℤ) / 10000 := by
  unfold formatApy jsToFixed2
  rw [show r * 100 * 100 * 100 = r * 1000000 by ring]
  ring

/-- C7 (counterexample): the claim says the output always equals
`r * 100` rounded to two decimals. For `r = 0.042567` the code returns
`4.2567` (four decimals kept), while two-decimal rounding would give
`4.26`. -/
theorem C7_counterexample :
    formatApy (42567/1000000) = 42567/10000 ∧
    formatApySpec (42567/1000000) = 426/100 ∧
    formatApy (42567/1000000) ≠ formatApySpec (42567/1000000) := by
  have h1 : formatApy (42567/1000000) = 42567/10000 := by
    rw [formatApy_eq_round,
      show (42567/1000000 : ℚ) * 1000000 = ((42567 : ℤ) : ℚ) by norm_num,
      round_intCast]
    norm_num
  have h2 : formatApySpec (42567/1000000) = 426/100 := by
    unfold formatApySpec jsToFixed2
    rw [show (42567/1000000 : ℚ) * 100 * 100 = 42567/100 by norm_num,
      round_eq_of_bounds (42567/100) 426 (by norm_num) (by norm_num)]
    norm_num
  refine ⟨h1, h2, ?_⟩
  rw [h1, h2]
  norm_num

/-- C7 (amended): `formatApy` multiplies the fractional rate by 10000,
rounds that to two decimals and divides by 100 — i.e. it returns
`r * 100` rounded to four decimal places; it agrees with the claimed
two-decimal rounding exactly when `r` has at most four fractional
decimal digits, and in particular maps the spec's example `0.0425` to
`4.25`. -/
theorem C7_four_decimal_rounding :
    (∀ r : ℚ, formatApy r = (round (r * 1000000) : ℤ) / 10000) ∧
    formatApy (425/10000) = 425/100 ∧
    (∀ r : ℚ, (∃ n : ℤ, r * 10000 = (n : ℚ)) → formatApy r = formatApySpec r) := by
  refine ⟨formatApy_eq_round, ?_, ?_⟩
  · rw [formatApy_eq_round,
      show (425/10000 : ℚ) * 1000000 = ((42500 : ℤ) : ℚ) by norm_num,
      round_intCast]
    norm_num
  · rintro r ⟨n, hn⟩
    have h1 : r * 1000000 = ((n * 100 : ℤ) : ℚ) := by
      push_cast
      linear_combination 100 * hn
    have h2 : r * 100 * 100 = ((n : ℤ) : ℚ) := by
      linear_combination hn
    have h3 : ((n * 100 : ℤ) : ℚ) = (n : ℚ) * 100 := by
      norm_num
    rw [formatApy_eq_round, h1, round_intCast, h3]
    unfold formatApySpec jsToFixed2
    rw [h2, round_intCast]
    ring

/-- C7 (witness): the agreement clause applied at `r = 0.1`
(`r * 10000 = 1000` is integral). -/
theorem C7_witness : formatApy (1/10) = formatApySpec (1/10) :=
  C7_four_decimal_rounding.2.2 (1/10) ⟨1000, by norm_num⟩

/-- C8: the endpoint's data is sorted non-increasing by APY (given that
cached lists were themselves stored sorted, which is how they are only
ever written), and on the fresh-aggregation path the sort is stable:
for every APY value, the products carrying it appear in their original
concatenation order. -/
theorem C8_sorted_and_stable (pp cp : Option String) (b1 b2 b3 b4 : List Product)
    (cache : CacheState) (now : ℕ)
    (hcache : ∀ (k : String) (l : List Product), cache.data.lookup k = some l →
        l.Pairwise (fun a b => b.apy ≤ a.apy)) :
    (GET pp cp b1 b2 b3 b4 cache now).data.Pairwise (fun a b => b.apy ≤ a.apy) ∧
    (getCachedData cache now
        (jsOrDefault pp "1d" ++ "-" ++ jsOrDefault cp "USDT") = none →
      ∀ c : ℚ,
        (GET pp cp b1 b2 b3 b4 cache now).data.filter (fun p => decide (p.apy = c)) =
          ((b1 ++ b2 ++ b3 ++ b4).filter
            (fun p => p.currency == jsOrDefault cp "USDT" && decide (0 < p.apy))).filter
            (fun p => decide (p.apy = c))) := by
  cases hc : getCachedData cache now
      (jsOrDefault pp "1d" ++ "-" ++ jsOrDefault cp "USDT") with
  | some l =>
    have hdata : (GET pp cp b1 b2 b3 b4 cache now).data = l := by simp [GET, hc]
    refine ⟨?_, ?_⟩
    · rw [hdata]
      exact hcache _ l (getCachedData_eq_some cache now _ l hc)
    · intro hnone
      exact absurd hnone (by simp)
  | none =>
    have hdata : (GET pp cp b1 b2 b3 b4 cache now).data =
        aggregate (jsOrDefault cp "USDT") b1 b2 b3 b4 := by simp [GET, hc]
    refine ⟨?_, ?_⟩
    · rw [hdata]
      unfold aggregate
      exact pairwise_sortDescBy (fun p : Product => p.apy) _
    · intro _ c
      rw [hdata]
      unfold aggregate
      exact filter_sortDescBy (fun p : Product => p.apy) c _

/-- C8 (witness): the sortedness fact applied to a concrete request on
an empty cache. -/
theorem C8_witness :
    (GET none none [productUSDT] [] [] [] emptyCache 0).data.Pairwise
      (fun a b => b.apy ≤ a.apy) :=
  (C8_sorted_and_stable none none [productUSDT] [] [] [] emptyCache 0
    (by
      intro k l h
      simp [emptyCache] at h)).1

/-- C9 (counterexample): with all credentials unset the Binance adapter
does not skip the vendor — it still sends its signed product-list
request, with the HMAC computed over the empty-string secret
(`process.env.BINANCE_API_SECRET || ''`). This contradicts the claim
that an adapter with empty/unset secrets sends no signed request. -/
theorem C9_counterexample :
    (fetchBinanceProducts envNoCreds binanceOFail 0).2 ≠ [] ∧
    (fetchBinanceProducts envNoCreds binanceOFail 0).2.head? =
      some ⟨"https://api.binance.com/sapi/v1/simple-earn/flexible/list",
        binanceListQuery "USDT" 0,
        Sig.hmacSha256Hex "" (binanceListQuery "USDT" 0)⟩ := by
  have hh : (fetchBinanceProducts envNoCreds binanceOFail 0).2.head? =
      some ⟨"https://api.binance.com/sapi/v1/simple-earn/flexible/list",
        binanceListQuery "USDT" 0,
        Sig.hmacSha256Hex "" (binanceListQuery "USDT" 0)⟩ := rfl
  refine ⟨?_, hh⟩
  intro hnil
  rw [hnil] at hh
  simp at hh

/-- C9 (amended): only the Bitget adapter guards its credentials — when
any of them is empty/unset it throws before sending anything, so it
emits no request and returns the empty list (not zero-APY
placeholders). The Binance adapter performs no such check: every signed
request it emits is HMAC-signed with whatever `BINANCE_API_SECRET`
holds — the empty string when unset — and on a non-thrown round it
always sends at least one such request. Neither adapter crashes: both
are total and the failures are absorbed by their `catch` blocks. -/
theorem C9_credential_handling :
    (∀ (env : Env) (og : BitgetOutcome) (now : ℕ), bitgetCredsMissing env = true →
        fetchBitgetProducts env og now = ([], [])) ∧
    (∀ (env : Env) (ob : BinanceOutcome) (now : ℕ) (r : SignedRequest),
        r ∈ (fetchBinanceProducts env ob now).2 →
        r.sig = Sig.hmacSha256Hex env.binanceApiSecret r.message) ∧
    (∀ (env : Env) (ob : BinanceOutcome) (now : ℕ), ob.thrown = false →
        (fetchBinanceProducts env ob now).2 ≠ []) := by
  refine ⟨?_, ?_, ?_⟩
  · intro env og now h
    simp [fetchBitgetProducts, h]
  · intro env ob now r hr
    cases ht : ob.thrown
    · simp only [fetchBinanceProducts, ht, Bool.false_eq_true, if_false] at hr
      rw [List.mem_flatten] at hr
      obtain ⟨l, hl, hrl⟩ := hr
      rw [List.mem_map] at hl
      obtain ⟨res, hres, rfl⟩ := hl
      rw [List.mem_map] at hres
      obtain ⟨coin, hcoin, rfl⟩ := hres
      exact sig_binanceFetchCoin env (ob.responses coin) coin now r hrl
    · simp [fetchBinanceProducts, ht] at hr
  · intro env ob now ht
    simp only [fetchBinanceProducts, ht, Bool.false_eq_true, if_false,
      SUPPORTED_STABLECOINS, List.map_cons, List.map_nil, List.flatten_cons,
      List.flatten_nil]
    intro hnil
    rcases List.append_eq_nil.mp hnil with ⟨h1, _⟩
    exact requests_binanceFetchCoin_ne_nil env (ob.responses "USDT") "USDT" now h1

/-- C9 (witness): the amended behaviour at a concrete credential-less
environment — Bitget skips with an empty result, Binance still emits
requests. -/
theorem C9_witness :
    bitgetCredsMissing envNoCreds = true ∧
    fetchBitgetProducts envNoCreds bitgetOEmpty 0 = ([], []) ∧
    (fetchBinanceProducts envNoCreds binanceOFail 0).2 ≠ [] :=
  ⟨rfl, C9_credential_handling.1 envNoCreds bitgetOEmpty 0 rfl,
    C9_credential_handling.2.2 envNoCreds binanceOFail 0 rfl⟩

/-- C10: a request without `period`/`coin` parameters behaves exactly as
`period=1d&coin=USDT`; and a request for a coin outside the supported
set is answered with a successful empty list (no validation error, no
error response, no cache write), because the currency filter matches
nothing — given that adapter outputs only carry supported currencies
and the cache has no entry for the request's key. -/
theorem C10_defaults_and_unknown_coin :
    (∀ (b1 b2 b3 b4 : List Product) (cache : CacheState) (now : ℕ),
        GET none none b1 b2 b3 b4 cache now =
          GET (some "1d") (some "USDT") b1 b2 b3 b4 cache now) ∧
    (∀ (pp cp : Option String) (b1 b2 b3 b4 : List Product)
        (cache : CacheState) (now : ℕ),
        (∀ p, (p ∈ b1 ∨ p ∈ b2 ∨ p ∈ b3 ∨ p ∈ b4) →
            p.currency ∈ SUPPORTED_STABLECOINS) →
        jsOrDefault cp "USDT" ∉ SUPPORTED_STABLECOINS →
        getCachedData cache now
            (jsOrDefault pp "1d" ++ "-" ++ jsOrDefault cp "USDT") = none →
        (GET pp cp b1 b2 b3 b4 cache now).success = true ∧
        (GET pp cp b1 b2 b3 b4 cache now).data = [] ∧
        (GET pp cp b1 b2 b3 b4 cache now).cache = cache) := by
  constructor
  · intro b1 b2 b3 b4 cache now
    rfl
  · intro pp cp b1 b2 b3 b4 cache now hsup hcoin hc
    have hagg : aggregate (jsOrDefault cp "USDT") b1 b2 b3 b4 = [] := by
      unfold aggregate
      have hfil : (b1 ++ b2 ++ b3 ++ b4).filter
          (fun p => p.currency == jsOrDefault cp "USDT" && decide (0 < p.apy)) = [] := by
        rw [List.filter_eq_nil_iff]
        intro p hp
        have hmem : p ∈ b1 ∨ p ∈ b2 ∨ p ∈ b3 ∨ p ∈ b4 := by
          simp only [List.mem_append] at hp
          tauto
        have hcur := hsup p hmem
        simp only [Bool.and_eq_true, beq_iff_eq, decide_eq_true_eq, not_and]
        intro heq
        exact absurd (heq ▸ hcur) hcoin
      rw [hfil]
      rfl
    exact ⟨by simp [GET, hc], by simp [GET, hc, hagg], by simp [GET, hc, hagg]⟩

/-- C10 (witness): the unknown-coin clause applied to `coin=BTC` with
one USDT product available and an empty cache. -/
theorem C10_witness :
    (GET none (some "BTC") [productUSDT] [] [] [] emptyCache 0).success = true ∧
    (GET none (some "BTC") [productUSDT] [] [] [] emptyCache 0).data = [] ∧
    (GET none (some "BTC") [productUSDT] [] [] [] emptyCache 0).cache = emptyCache :=
  C10_defaults_and_unknown_coin.2 none (some "BTC") [productUSDT] [] [] []
    emptyCache 0
    (by
      intro p hp
      rcases hp with hp | hp | hp | hp
      · rw [List.mem_singleton] at hp
        subst hp
        simp [productUSDT, SUPPORTED_STABLECOINS]
      · simp at hp
      · simp at hp
      · simp at hp)
    (by simp [jsOrDefault, SUPPORTED_STABLECOINS])
    (by simp [getCachedData, isCacheValid, emptyCache])

end CexEarn
